import Mathlib

/-!
A shallow embedding of the order-matching core of the single-instrument
order management system in `src/main.rs`, together with proofs about its
public operations (`add_order` / `try_match`, `modify_order`,
`cancel_order`) and the book invariants claimed for them.

The Rust `VecDeque<Order>` is modelled as a `List Order` whose head is the
front of the deque; `push_back` is append at the tail.  The `u64` fields
carry no arithmetic that can overflow (the only arithmetic is a
subtraction of a `min`, which cannot underflow), so they are modelled as
`Nat`.  Database writes are fire-and-forget side effects with no influence
on the in-memory book, so they are not modelled; the trade events that
`try_match` reports (bid id, ask id, matched quantity, logged price) are
returned explicitly as a list.  Timestamps come from the wall clock in the
code and are never inspected by any book operation, so they are passed as
an explicit parameter.
-/

namespace OMS

/-- Mirrors enum `Side` of `src/main.rs`. -/
inductive Side where
  | Buy
  | Sell
deriving DecidableEq

/-- Mirrors enum `OrderStatus` of `src/main.rs`. -/
inductive OrderStatus where
  | Open
  | PartiallyFilled
  | Filled
  | Cancelled
deriving DecidableEq

/-- Mirrors struct `Order` of `src/main.rs`: the in-memory record holds a
single `quantity` field (the remaining quantity); the original quantity is
not stored in memory. -/
structure Order where
  id : Nat
  side : Side
  price : Nat
  quantity : Nat
  timestamp : Nat
  status : OrderStatus
deriving DecidableEq

/-- Mirrors `Order::new`: a fresh order starts `Open` with the submitted
quantity.  The wall-clock timestamp is passed explicitly. -/
def Order.new (id : Nat) (side : Side) (price quantity timestamp : Nat) : Order :=
  { id := id, side := side, price := price, quantity := quantity,
    timestamp := timestamp, status := OrderStatus.Open }

/-- A trade event as reported by `try_match` (the `MATCH FOUND!` record):
bid id, ask id, matched quantity, and the price it reports, which in the
code is `best_ask_mut.price`. -/
structure Trade where
  bidId : Nat
  askId : Nat
  quantity : Nat
  price : Nat
deriving DecidableEq

/-- Mirrors struct `OrderBook`: two deques, `bids` and `asks`; the list
head is the deque front. -/
structure OrderBook where
  bids : List Order
  asks : List Order
deriving DecidableEq

/-- Mirrors `OrderBook::new`. -/
def emptyBook : OrderBook := { bids := [], asks := [] }

/-- The crossing test of the matching loop: both fronts exist and
`best_bid.price >= best_ask.price`. -/
def crossed : List Order → List Order → Bool
  | bid :: _, ask :: _ => decide (ask.price ≤ bid.price)
  | _, _ => false

/-- One iteration of the `while` loop of `OrderBook::try_match` with
crossing fronts `bid` and `ask`: trade
`min(best_bid.quantity, best_ask.quantity)`, decrement both fronts,
recompute their statuses (`Filled` at zero, else `PartiallyFilled`), pop
every front that reached zero, and record the trade event, whose logged
price is `best_ask_mut.price`. -/
def matchStep (bid ask : Order) (restBids restAsks : List Order) :
    (List Order × List Order) × Trade :=
  let m := min bid.quantity ask.quantity
  let bid' : Order := { bid with
    quantity := bid.quantity - m,
    status := if bid.quantity - m = 0 then OrderStatus.Filled
              else OrderStatus.PartiallyFilled }
  let ask' : Order := { ask with
    quantity := ask.quantity - m,
    status := if ask.quantity - m = 0 then OrderStatus.Filled
              else OrderStatus.PartiallyFilled }
  let newBids := if bid.quantity - m = 0 then restBids else bid' :: restBids
  let newAsks := if ask.quantity - m = 0 then restAsks else ask' :: restAsks
  ((newBids, newAsks), ⟨bid.id, ask.id, m, ask.price⟩)

/-- The `while` loop of `OrderBook::try_match`, with an explicit fuel
parameter.  The loop breaks when a side is empty or the fronts no longer
cross.  `matchLoopF_fuel_add` below shows that `bids.length + asks.length`
fuel always reaches the break condition, so the fueled loop computes the
code's unbounded loop. -/
def matchLoopF : Nat → List Order → List Order → (List Order × List Order) × List Trade
  | 0, bids, asks => ((bids, asks), [])
  | fuel + 1, bids, asks =>
    match bids, asks with
    | [], _ => ((bids, asks), [])
    | _ :: _, [] => ((bids, asks), [])
    | bid :: restBids, ask :: restAsks =>
      if ask.price ≤ bid.price then
        let s := matchStep bid ask restBids restAsks
        let r := matchLoopF fuel s.1.1 s.1.2
        (r.1, s.2 :: r.2)
      else ((bids, asks), [])

/-- `OrderBook::try_match`, returning the mutated book and the trades. -/
def tryMatch (b : OrderBook) : OrderBook × List Trade :=
  ({ bids := (matchLoopF (b.bids.length + b.asks.length) b.bids b.asks).1.1,
     asks := (matchLoopF (b.bids.length + b.asks.length) b.bids b.asks).1.2 },
   (matchLoopF (b.bids.length + b.asks.length) b.bids b.asks).2)

/-- Mirrors `OrderBook::add_order`: `push_back` on the side's deque, then
`try_match`. -/
def addOrder (b : OrderBook) (o : Order) : OrderBook × List Trade :=
  match o.side with
  | Side.Buy => tryMatch { bids := b.bids ++ [o], asks := b.asks }
  | Side.Sell => tryMatch { bids := b.bids, asks := b.asks ++ [o] }

/-- The book mutation performed by `create_order_handler`: it allocates
an id, builds the order with `Order::new` — with no validation of price
or quantity — and calls `add_order`.  The handler's response body is the
snapshot cloned before `add_order` runs, returned here as the first
component. -/
def createOrder (b : OrderBook) (nextId : Nat) (side : Side)
    (price quantity timestamp : Nat) : Order × (OrderBook × List Trade) :=
  let o := Order.new nextId side price quantity timestamp
  (o, addOrder b o)

/-- The status recomputation of `OrderBook::modify_order`: `Filled`
becomes `Open`; anything other than `PartiallyFilled` becomes `Open`;
`PartiallyFilled` is kept.  The original quantity is never consulted. -/
def modifiedStatus (s : OrderStatus) : OrderStatus :=
  if s = OrderStatus.Filled then OrderStatus.Open
  else if s ≠ OrderStatus.PartiallyFilled then OrderStatus.Open
  else s

/-- The in-place mutation `modify_order` applies to the located order. -/
def applyModify (o : Order) (q : Nat) : Order :=
  { o with quantity := q, status := modifiedStatus o.status }

/-- `iter_mut().find(|o| o.id == id)` followed by the in-place update:
rewrites the first order with the given id and returns its snapshot. -/
def updateQty (id q : Nat) : List Order → Option Order × List Order
  | [] => (none, [])
  | o :: rest =>
    if o.id = id then
      (some (applyModify o q), applyModify o q :: rest)
    else
      let r := updateQty id q rest
      (r.1, o :: r.2)

/-- `iter().position(|o| o.id == id)` followed by `remove(index)`: takes
out the first order with the given id, keeping the rest in order. -/
def removeById (id : Nat) : List Order → Option (Order × List Order)
  | [] => none
  | o :: rest =>
    if o.id = id then some (o, rest)
    else
      match removeById id rest with
      | some (r, rest') => some (r, o :: rest')
      | none => none

/-- Mirrors `OrderBook::cancel_order`: remove by id from bids, else from
asks, mark the removed snapshot `Cancelled`; `none` when absent. -/
def cancelOrder (b : OrderBook) (id : Nat) : Option Order × OrderBook :=
  match removeById id b.bids with
  | some (o, bids') =>
    (some { o with status := OrderStatus.Cancelled }, { bids := bids', asks := b.asks })
  | none =>
    match removeById id b.asks with
    | some (o, asks') =>
      (some { o with status := OrderStatus.Cancelled }, { bids := b.bids, asks := asks' })
    | none => (none, b)

/-- Mirrors `OrderBook::modify_order`: quantity `0` delegates to cancel;
otherwise the first order with the id, searched in bids then asks, gets
its quantity replaced and status recomputed, and its snapshot returned;
`none` when absent. -/
def modifyOrder (b : OrderBook) (id q : Nat) : Option Order × OrderBook :=
  if q = 0 then cancelOrder b id
  else
    match updateQty id q b.bids with
    | (some o, bids') => (some o, { bids := bids', asks := b.asks })
    | (none, _) =>
      match updateQty id q b.asks with
      | (some o, asks') => (some o, { bids := b.bids, asks := asks' })
      | (none, _) => (none, b)

/-- First order with a given id, as `find` does in `modify_order`. -/
def findById (id : Nat) : List Order → Option Order
  | [] => none
  | o :: rest => if o.id = id then some o else findById id rest

/-- Number of orders with a given id in a list. -/
def countId (id : Nat) : List Order → Nat
  | [] => 0
  | o :: rest => (if o.id = id then 1 else 0) + countId id rest

/-- Number of orders with a given id across both sides of the book. -/
def idCount (id : Nat) (b : OrderBook) : Nat := countId id b.bids + countId id b.asks

/-- Every resting order has a positive (remaining) quantity. -/
def allPos (b : OrderBook) : Prop :=
  (∀ o ∈ b.bids, 0 < o.quantity) ∧ (∀ o ∈ b.asks, 0 < o.quantity)

/-- A list of orders is sorted by price descending (the ordering the spec
asserts for the bids index). -/
def descByPrice : List Order → Bool
  | [] => true
  | [_] => true
  | a :: b :: rest => decide (b.price ≤ a.price) && descByPrice (b :: rest)

/-- Book reached by the submissions Buy 5@90 (id 1) and Buy 5@105 (id 2)
on an empty book. -/
def twoBuysBook : OrderBook :=
  (addOrder (addOrder emptyBook (Order.new 1 Side.Buy 90 5 10)).1
    (Order.new 2 Side.Buy 105 5 11)).1

/-- Book reached from `twoBuysBook` by submitting Sell 5@100 (id 3) and
then cancelling id 1. -/
def cancelExposesCrossBook : OrderBook :=
  (cancelOrder (addOrder twoBuysBook (Order.new 3 Side.Sell 100 5 12)).1 1).2

/-- Book reached by submitting Buy 10@100 (id 1) on an empty book: a
single resting bid with status `Open` and quantity 10. -/
def openBidBook : OrderBook :=
  (addOrder emptyBook (Order.new 1 Side.Buy 100 10 5)).1

/-! ### Basic lemmas about the matching loop -/

theorem matchLoopF_nil_bids (f : Nat) (asks : List Order) :
    matchLoopF f [] asks = (([], asks), []) := by
  cases f <;> rfl

theorem matchLoopF_nil_asks (f : Nat) (bids : List Order) :
    matchLoopF f bids [] = ((bids, []), []) := by
  cases f <;> cases bids <;> rfl

theorem matchLoopF_succ_cross (f : Nat) (bid ask : Order) (rb ra : List Order)
    (h : ask.price ≤ bid.price) :
    matchLoopF (f + 1) (bid :: rb) (ask :: ra) =
      ((matchLoopF f (matchStep bid ask rb ra).1.1 (matchStep bid ask rb ra).1.2).1,
        (matchStep bid ask rb ra).2 ::
          (matchLoopF f (matchStep bid ask rb ra).1.1 (matchStep bid ask rb ra).1.2).2) := by
  simp [matchLoopF, h]

theorem matchLoopF_succ_nocross (f : Nat) (bid ask : Order) (rb ra : List Order)
    (h : ¬ ask.price ≤ bid.price) :
    matchLoopF (f + 1) (bid :: rb) (ask :: ra) = ((bid :: rb, ask :: ra), []) := by
  simp [matchLoopF, h]

theorem matchStep_size (bid ask : Order) (rb ra : List Order) :
    (matchStep bid ask rb ra).1.1.length + (matchStep bid ask rb ra).1.2.length + 1
      ≤ rb.length + 1 + (ra.length + 1) := by
  simp only [matchStep]
  split <;> split <;> (try simp only [List.length_cons]) <;> omega

theorem matchStep_trade (bid ask : Order) (rb ra : List Order) :
    (matchStep bid ask rb ra).2 =
      ⟨bid.id, ask.id, min bid.quantity ask.quantity, ask.price⟩ := rfl

theorem matchLoopF_succ_cross_fst (f : Nat) (bid ask : Order) (rb ra : List Order)
    (h : ask.price ≤ bid.price) :
    (matchLoopF (f + 1) (bid :: rb) (ask :: ra)).1 =
      (matchLoopF f (matchStep bid ask rb ra).1.1 (matchStep bid ask rb ra).1.2).1 := by
  rw [matchLoopF_succ_cross f bid ask rb ra h]

theorem matchLoopF_succ_cross_snd (f : Nat) (bid ask : Order) (rb ra : List Order)
    (h : ask.price ≤ bid.price) :
    (matchLoopF (f + 1) (bid :: rb) (ask :: ra)).2 =
      (matchStep bid ask rb ra).2 ::
        (matchLoopF f (matchStep bid ask rb ra).1.1 (matchStep bid ask rb ra).1.2).2 := by
  rw [matchLoopF_succ_cross f bid ask rb ra h]

theorem crossed_nil_left (asks : List Order) : crossed [] asks = false := by
  cases asks <;> rfl

theorem crossed_nil_right (bids : List Order) : crossed bids [] = false := by
  cases bids <;> rfl

/-- With fuel at least the number of resting orders, the matching loop
always reaches its break condition: afterwards the fronts do not cross. -/
theorem matchLoopF_noCross (fuel : Nat) :
    ∀ bids asks : List Order, bids.length + asks.length ≤ fuel →
      crossed (matchLoopF fuel bids asks).1.1 (matchLoopF fuel bids asks).1.2 = false := by
  induction fuel with
  | zero =>
    intro bids asks h
    have hb : bids = [] := List.length_eq_zero.mp (by omega)
    have ha : asks = [] := List.length_eq_zero.mp (by omega)
    subst hb; subst ha; rfl
  | succ n ih =>
    intro bids asks h
    rcases bids with _ | ⟨b, rb⟩
    · rw [matchLoopF_nil_bids]; exact crossed_nil_left _
    rcases asks with _ | ⟨a, ra⟩
    · rw [matchLoopF_nil_asks]; exact crossed_nil_right _
    by_cases hc : a.price ≤ b.price
    · rw [matchLoopF_succ_cross_fst n b a rb ra hc]
      refine ih _ _ ?_
      have hs := matchStep_size b a rb ra
      simp only [List.length_cons] at h
      omega
    · rw [matchLoopF_succ_nocross n b a rb ra hc]
      simp [crossed, hc]

/-- With fuel at least the number of resting orders, extra fuel changes
nothing: the loop has genuinely terminated. -/
theorem matchLoopF_fuel_add (fuel : Nat) :
    ∀ bids asks : List Order, bids.length + asks.length ≤ fuel → ∀ k : Nat,
      matchLoopF (fuel + k) bids asks = matchLoopF fuel bids asks := by
  induction fuel with
  | zero =>
    intro bids asks h k
    have hb : bids = [] := List.length_eq_zero.mp (by omega)
    subst hb; rw [matchLoopF_nil_bids, matchLoopF_nil_bids]
  | succ n ih =>
    intro bids asks h k
    rcases bids with _ | ⟨b, rb⟩
    · rw [matchLoopF_nil_bids, matchLoopF_nil_bids]
    rcases asks with _ | ⟨a, ra⟩
    · rw [matchLoopF_nil_asks, matchLoopF_nil_asks]
    have hadd : n + 1 + k = n + k + 1 := by omega
    by_cases hc : a.price ≤ b.price
    · rw [hadd, matchLoopF_succ_cross (n + k) b a rb ra hc,
        matchLoopF_succ_cross n b a rb ra hc]
      have hsz : (matchStep b a rb ra).1.1.length + (matchStep b a rb ra).1.2.length ≤ n := by
        have hs := matchStep_size b a rb ra
        simp only [List.length_cons] at h
        omega
      rw [ih _ _ hsz k]
    · rw [hadd, matchLoopF_succ_nocross (n + k) b a rb ra hc,
        matchLoopF_succ_nocross n b a rb ra hc]

/-- Every loop iteration both emits one trade and removes at least one
order, so trades emitted plus orders left never exceed the orders that
were resting when the loop started. -/
theorem matchLoopF_size (fuel : Nat) :
    ∀ bids asks : List Order,
      (matchLoopF fuel bids asks).2.length + (matchLoopF fuel bids asks).1.1.length
        + (matchLoopF fuel bids asks).1.2.length ≤ bids.length + asks.length := by
  induction fuel with
  | zero => intro bids asks; simp [matchLoopF]
  | succ n ih =>
    intro bids asks
    rcases bids with _ | ⟨b, rb⟩
    · rw [matchLoopF_nil_bids]; simp
    rcases asks with _ | ⟨a, ra⟩
    · rw [matchLoopF_nil_asks]; simp
    by_cases hc : a.price ≤ b.price
    · rw [matchLoopF_succ_cross_fst n b a rb ra hc,
        matchLoopF_succ_cross_snd n b a rb ra hc]
      have h1 := ih (matchStep b a rb ra).1.1 (matchStep b a rb ra).1.2
      have h2 := matchStep_size b a rb ra
      simp only [List.length_cons]
      omega
    · rw [matchLoopF_succ_nocross n b a rb ra hc]; simp

theorem matchStep_pos_bids (bid ask : Order) (rb ra : List Order)
    (hrb : ∀ o ∈ rb, 0 < o.quantity) :
    ∀ o ∈ (matchStep bid ask rb ra).1.1, 0 < o.quantity := by
  intro o ho
  simp only [matchStep] at ho
  split at ho
  · exact hrb o ho
  · rename_i hne
    rcases List.mem_cons.mp ho with h | h
    · subst h
      show 0 < bid.quantity - min bid.quantity ask.quantity
      omega
    · exact hrb o h

theorem matchStep_pos_asks (bid ask : Order) (rb ra : List Order)
    (hra : ∀ o ∈ ra, 0 < o.quantity) :
    ∀ o ∈ (matchStep bid ask rb ra).1.2, 0 < o.quantity := by
  intro o ho
  simp only [matchStep] at ho
  split at ho
  · exact hra o ho
  · rename_i hne
    rcases List.mem_cons.mp ho with h | h
    · subst h
      show 0 < ask.quantity - min bid.quantity ask.quantity
      omega
    · exact hra o h

/-- The matching loop keeps every resting quantity positive: an order
whose quantity reaches zero is removed in the same iteration. -/
theorem matchLoopF_pos (fuel : Nat) :
    ∀ bids asks : List Order,
      (∀ o ∈ bids, 0 < o.quantity) → (∀ o ∈ asks, 0 < o.quantity) →
      (∀ o ∈ (matchLoopF fuel bids asks).1.1, 0 < o.quantity) ∧
      (∀ o ∈ (matchLoopF fuel bids asks).1.2, 0 < o.quantity) := by
  induction fuel with
  | zero => intro bids asks hb ha; exact ⟨hb, ha⟩
  | succ n ih =>
    intro bids asks hb ha
    rcases bids with _ | ⟨b, rb⟩
    · rw [matchLoopF_nil_bids]; exact ⟨hb, ha⟩
    rcases asks with _ | ⟨a, ra⟩
    · rw [matchLoopF_nil_asks]; exact ⟨hb, ha⟩
    by_cases hc : a.price ≤ b.price
    · rw [matchLoopF_succ_cross_fst n b a rb ra hc]
      exact ih _ _
        (matchStep_pos_bids b a rb ra fun o ho => hb o (List.mem_cons_of_mem _ ho))
        (matchStep_pos_asks b a rb ra fun o ho => ha o (List.mem_cons_of_mem _ ho))
    · rw [matchLoopF_succ_nocross n b a rb ra hc]; exact ⟨hb, ha⟩

/-! ### Lemmas about lookup, in-place update, and removal by id -/

theorem updateQty_fst (id q : Nat) (l : List Order) :
    (updateQty id q l).1 = Option.map (fun o => applyModify o q) (findById id l) := by
  induction l with
  | nil => rfl
  | cons o rest ih =>
    by_cases h : o.id = id
    · simp [updateQty, findById, h]
    · simp [updateQty, findById, h, ih]

theorem updateQty_mem (id q : Nat) (l : List Order) (r : Order)
    (h : (updateQty id q l).1 = some r) : r ∈ (updateQty id q l).2 := by
  induction l with
  | nil => simp [updateQty] at h
  | cons o rest ih =>
    by_cases ho : o.id = id
    · simp only [updateQty, if_pos ho, Option.some.injEq] at h
      simp only [updateQty, if_pos ho]
      exact h ▸ List.mem_cons_self _ _
    · simp only [updateQty, if_neg ho] at h
      simp only [updateQty, if_neg ho]
      exact List.mem_cons_of_mem _ (ih h)

theorem updateQty_snd_mem (id q : Nat) (l : List Order) :
    ∀ x ∈ (updateQty id q l).2, x.quantity = q ∨ x ∈ l := by
  induction l with
  | nil => simp [updateQty]
  | cons o rest ih =>
    intro x hx
    by_cases ho : o.id = id
    · simp only [updateQty, if_pos ho] at hx
      rcases List.mem_cons.mp hx with h | h
      · left; rw [h]; rfl
      · right; exact List.mem_cons_of_mem _ h
    · simp only [updateQty, if_neg ho] at hx
      rcases List.mem_cons.mp hx with h | h
      · right; rw [h]; exact List.mem_cons_self _ _
      · rcases ih x h with h' | h'
        · exact Or.inl h'
        · exact Or.inr (List.mem_cons_of_mem _ h')

theorem findById_none_iff (id : Nat) (l : List Order) :
    findById id l = none ↔ countId id l = 0 := by
  induction l with
  | nil => simp [findById, countId]
  | cons o rest ih =>
    by_cases h : o.id = id
    · simp [findById, countId, h]
    · simp [findById, countId, h, ih]

theorem removeById_none_iff (id : Nat) (l : List Order) :
    removeById id l = none ↔ countId id l = 0 := by
  induction l with
  | nil => simp [removeById, countId]
  | cons o rest ih =>
    by_cases h : o.id = id
    · simp [removeById, countId, h]
    · cases hr : removeById id rest with
      | none => simp [removeById, countId, h, hr, ← ih]
      | some p => simp [removeById, countId, h, hr, ← ih]

theorem removeById_some_count (id : Nat) (l : List Order) (o : Order) (l' : List Order)
    (h : removeById id l = some (o, l')) : countId id l = countId id l' + 1 := by
  induction l generalizing o l' with
  | nil => simp [removeById] at h
  | cons x rest ih =>
    by_cases hx : x.id = id
    · simp only [removeById, if_pos hx, Option.some.injEq, Prod.mk.injEq] at h
      obtain ⟨h1, h2⟩ := h
      subst h1; subst h2
      simp [countId, hx]
      omega
    · simp only [removeById, if_neg hx] at h
      cases hr : removeById id rest with
      | none => rw [hr] at h; simp at h
      | some p =>
        obtain ⟨r, rest'⟩ := p
        rw [hr] at h
        simp only [Option.some.injEq, Prod.mk.injEq] at h
        obtain ⟨h1, h2⟩ := h
        subst h1; subst h2
        simp [countId, hx, ih r rest' hr]

theorem removeById_subset (id : Nat) (l : List Order) (o : Order) (l' : List Order)
    (h : removeById id l = some (o, l')) : ∀ x ∈ l', x ∈ l := by
  induction l generalizing o l' with
  | nil => simp [removeById] at h
  | cons x rest ih =>
    by_cases hx : x.id = id
    · simp only [removeById, if_pos hx, Option.some.injEq, Prod.mk.injEq] at h
      obtain ⟨h1, h2⟩ := h
      subst h2
      exact fun y hy => List.mem_cons_of_mem _ hy
    · simp only [removeById, if_neg hx] at h
      cases hr : removeById id rest with
      | none => rw [hr] at h; simp at h
      | some p =>
        obtain ⟨r, rest'⟩ := p
        rw [hr] at h
        simp only [Option.some.injEq, Prod.mk.injEq] at h
        obtain ⟨h1, h2⟩ := h
        subst h2
        intro y hy
        rcases List.mem_cons.mp hy with h' | h'
        · rw [h']; exact List.mem_cons_self _ _
        · exact List.mem_cons_of_mem _ (ih r rest' hr y h')

/-! ### Branch equations for cancel and modify -/

theorem cancelOrder_eq_bids (b : OrderBook) (id : Nat) (o : Order) (l' : List Order)
    (h : removeById id b.bids = some (o, l')) :
    cancelOrder b id =
      (some { o with status := OrderStatus.Cancelled }, { bids := l', asks := b.asks }) := by
  unfold cancelOrder
  rw [h]

theorem cancelOrder_eq_asks (b : OrderBook) (id : Nat) (o : Order) (l' : List Order)
    (hb : removeById id b.bids = none) (h : removeById id b.asks = some (o, l')) :
    cancelOrder b id =
      (some { o with status := OrderStatus.Cancelled }, { bids := b.bids, asks := l' }) := by
  unfold cancelOrder
  rw [hb, h]

theorem cancelOrder_eq_none (b : OrderBook) (id : Nat)
    (hb : removeById id b.bids = none) (ha : removeById id b.asks = none) :
    cancelOrder b id = (none, b) := by
  unfold cancelOrder
  rw [hb, ha]

theorem modifyOrder_eq_bids (b : OrderBook) (id q : Nat) (o : Order) (l : List Order)
    (hq : q ≠ 0) (h : updateQty id q b.bids = (some o, l)) :
    modifyOrder b id q = (some o, { bids := l, asks := b.asks }) := by
  unfold modifyOrder
  rw [if_neg hq, h]

theorem modifyOrder_eq_asks (b : OrderBook) (id q : Nat) (o : Order) (l1 l2 : List Order)
    (hq : q ≠ 0) (h1 : updateQty id q b.bids = (none, l1))
    (h2 : updateQty id q b.asks = (some o, l2)) :
    modifyOrder b id q = (some o, { bids := b.bids, asks := l2 }) := by
  unfold modifyOrder
  rw [if_neg hq, h1, h2]

theorem modifyOrder_eq_none (b : OrderBook) (id q : Nat) (l1 l2 : List Order)
    (hq : q ≠ 0) (h1 : updateQty id q b.bids = (none, l1))
    (h2 : updateQty id q b.asks = (none, l2)) :
    modifyOrder b id q = (none, b) := by
  unfold modifyOrder
  rw [if_neg hq, h1, h2]

theorem modifyOrder_zero (b : OrderBook) (id : Nat) :
    modifyOrder b id 0 = cancelOrder b id := by
  simp [modifyOrder]

/-! ### Lemmas about cancel and modify at the book level -/

theorem cancelOrder_fst_none_iff (b : OrderBook) (id : Nat) :
    (cancelOrder b id).1 = none ↔ idCount id b = 0 := by
  unfold idCount
  cases hr1 : removeById id b.bids with
  | some p =>
    obtain ⟨o, l'⟩ := p
    have h1 := removeById_some_count id b.bids o l' hr1
    rw [cancelOrder_eq_bids b id o l' hr1]
    simp
    omega
  | none =>
    have h1 := (removeById_none_iff id b.bids).mp hr1
    cases hr2 : removeById id b.asks with
    | some p =>
      obtain ⟨o, l'⟩ := p
      have h2 := removeById_some_count id b.asks o l' hr2
      rw [cancelOrder_eq_asks b id o l' hr1 hr2]
      simp
      omega
    | none =>
      have h2 := (removeById_none_iff id b.asks).mp hr2
      rw [cancelOrder_eq_none b id hr1 hr2]
      simp
      omega

theorem cancelOrder_none_snd (b : OrderBook) (id : Nat)
    (h : (cancelOrder b id).1 = none) : (cancelOrder b id).2 = b := by
  cases hr1 : removeById id b.bids with
  | some p =>
    obtain ⟨o, l'⟩ := p
    rw [cancelOrder_eq_bids b id o l' hr1] at h
    simp at h
  | none =>
    cases hr2 : removeById id b.asks with
    | some p =>
      obtain ⟨o, l'⟩ := p
      rw [cancelOrder_eq_asks b id o l' hr1 hr2] at h
      simp at h
    | none => rw [cancelOrder_eq_none b id hr1 hr2]

theorem cancelOrder_some_status (b : OrderBook) (id : Nat) (r : Order)
    (h : (cancelOrder b id).1 = some r) : r.status = OrderStatus.Cancelled := by
  cases hr1 : removeById id b.bids with
  | some p =>
    obtain ⟨o, l'⟩ := p
    rw [cancelOrder_eq_bids b id o l' hr1] at h
    simp only [Option.some.injEq] at h
    rw [← h]
  | none =>
    cases hr2 : removeById id b.asks with
    | some p =>
      obtain ⟨o, l'⟩ := p
      rw [cancelOrder_eq_asks b id o l' hr1 hr2] at h
      simp only [Option.some.injEq] at h
      rw [← h]
    | none =>
      rw [cancelOrder_eq_none b id hr1 hr2] at h
      simp at h

theorem cancelOrder_some_count (b : OrderBook) (id : Nat) (r : Order)
    (h : (cancelOrder b id).1 = some r) :
    idCount id (cancelOrder b id).2 + 1 = idCount id b := by
  unfold idCount
  cases hr1 : removeById id b.bids with
  | some p =>
    obtain ⟨o, l'⟩ := p
    have h1 := removeById_some_count id b.bids o l' hr1
    rw [cancelOrder_eq_bids b id o l' hr1]
    simp
    omega
  | none =>
    have h1 := (removeById_none_iff id b.bids).mp hr1
    cases hr2 : removeById id b.asks with
    | some p =>
      obtain ⟨o, l'⟩ := p
      have h2 := removeById_some_count id b.asks o l' hr2
      rw [cancelOrder_eq_asks b id o l' hr1 hr2]
      simp
      omega
    | none =>
      rw [cancelOrder_eq_none b id hr1 hr2] at h
      simp at h

theorem cancelOrder_snd_subset (b : OrderBook) (id : Nat) :
    (∀ x ∈ (cancelOrder b id).2.bids, x ∈ b.bids) ∧
    (∀ x ∈ (cancelOrder b id).2.asks, x ∈ b.asks) := by
  cases hr1 : removeById id b.bids with
  | some p =>
    obtain ⟨o, l'⟩ := p
    rw [cancelOrder_eq_bids b id o l' hr1]
    exact ⟨removeById_subset id b.bids o l' hr1, fun x hx => hx⟩
  | none =>
    cases hr2 : removeById id b.asks with
    | some p =>
      obtain ⟨o, l'⟩ := p
      rw [cancelOrder_eq_asks b id o l' hr1 hr2]
      exact ⟨fun x hx => hx, removeById_subset id b.asks o l' hr2⟩
    | none =>
      rw [cancelOrder_eq_none b id hr1 hr2]
      exact ⟨fun x hx => hx, fun x hx => hx⟩

theorem modifyOrder_fst (b : OrderBook) (id q : Nat) (hq : q ≠ 0) :
    (modifyOrder b id q).1 =
      match findById id b.bids with
      | some o => some (applyModify o q)
      | none => Option.map (fun o => applyModify o q) (findById id b.asks) := by
  have h1 := updateQty_fst id q b.bids
  have h2 := updateQty_fst id q b.asks
  rcases hu1 : updateQty id q b.bids with ⟨f1, l1⟩
  rcases hu2 : updateQty id q b.asks with ⟨f2, l2⟩
  rw [hu1] at h1
  rw [hu2] at h2
  simp only at h1 h2
  cases hf1 : findById id b.bids with
  | some o =>
    rw [hf1] at h1
    rw [modifyOrder_eq_bids b id q (applyModify o q) l1 hq (by rw [hu1, h1]; rfl)]
  | none =>
    rw [hf1] at h1
    simp only [Option.map_none'] at h1
    cases hf2 : findById id b.asks with
    | some o =>
      rw [hf2] at h2
      rw [modifyOrder_eq_asks b id q (applyModify o q) l1 l2 hq
        (by rw [hu1, h1]) (by rw [hu2, h2]; rfl)]
      rfl
    | none =>
      rw [hf2] at h2
      simp only [Option.map_none'] at h2
      rw [modifyOrder_eq_none b id q l1 l2 hq (by rw [hu1, h1]) (by rw [hu2, h2])]
      rfl

theorem modifyOrder_none_snd (b : OrderBook) (id q : Nat)
    (h : (modifyOrder b id q).1 = none) : (modifyOrder b id q).2 = b := by
  by_cases hq : q = 0
  · subst hq
    rw [modifyOrder_zero] at h ⊢
    exact cancelOrder_none_snd b id h
  · rcases hu1 : updateQty id q b.bids with ⟨f1, l1⟩
    cases f1 with
    | some o =>
      rw [modifyOrder_eq_bids b id q o l1 hq hu1] at h
      simp at h
    | none =>
      rcases hu2 : updateQty id q b.asks with ⟨f2, l2⟩
      cases f2 with
      | some o =>
        rw [modifyOrder_eq_asks b id q o l1 l2 hq hu1 hu2] at h
        simp at h
      | none => rw [modifyOrder_eq_none b id q l1 l2 hq hu1 hu2]

/-! ### Lemmas about try_match and add_order at the book level -/

theorem tryMatch_asks_nil (bids : List Order) :
    tryMatch { bids := bids, asks := [] } = ({ bids := bids, asks := [] }, []) := by
  simp [tryMatch, matchLoopF_nil_asks]

theorem tryMatch_bids_nil (asks : List Order) :
    tryMatch { bids := [], asks := asks } = ({ bids := [], asks := asks }, []) := by
  simp [tryMatch, matchLoopF_nil_bids]

theorem tryMatch_allPos (bids asks : List Order)
    (hb : ∀ x ∈ bids, 0 < x.quantity) (ha : ∀ x ∈ asks, 0 < x.quantity) :
    allPos (tryMatch { bids := bids, asks := asks }).1 :=
  matchLoopF_pos (bids.length + asks.length) bids asks hb ha

/-- The matching loop keeps exactly one trade when one resting bid meets
one incoming ask with crossing prices: after the first iteration at
least one of the two singleton sides is exhausted, so the loop stops. -/
theorem matchLoopF_one_one (f : Nat) (bid ask : Order) (h : ask.price ≤ bid.price) :
    (matchLoopF (f + 1) [bid] [ask]).2 =
      [⟨bid.id, ask.id, min bid.quantity ask.quantity, ask.price⟩] := by
  rw [matchLoopF_succ_cross_snd f bid ask [] [] h, matchStep_trade]
  have htail :
      (matchLoopF f (matchStep bid ask [] []).1.1 (matchStep bid ask [] []).1.2).2 = [] := by
    rcases Nat.le_total bid.quantity ask.quantity with hle | hle
    · have hz : (matchStep bid ask [] []).1.1 = [] := by
        simp only [matchStep]
        rw [if_pos (by omega)]
      rw [hz, matchLoopF_nil_bids]
    · have hz : (matchStep bid ask [] []).1.2 = [] := by
        simp only [matchStep]
        rw [if_pos (by omega)]
      rw [hz, matchLoopF_nil_asks]
  rw [htail]

/-! ### Claim theorems -/

/-- C1 (amended): after `add_order` (submit) completes, the front of the
bids deque and the front of the asks deque never cross: whenever both are
non-empty, the front bid price is strictly below the front ask price.
The original claim extends this to cancel and modify, which is refuted by
`C1_counterexample`. -/
theorem C1_submit_no_residual_cross (b : OrderBook) (o : Order) :
    crossed (addOrder b o).1.bids (addOrder b o).1.asks = false := by
  rcases o with ⟨i, s, p, qty, ts, st⟩
  cases s
  · exact matchLoopF_noCross
      ((b.bids ++ [(⟨i, Side.Buy, p, qty, ts, st⟩ : Order)]).length + b.asks.length)
      (b.bids ++ [(⟨i, Side.Buy, p, qty, ts, st⟩ : Order)]) b.asks (le_refl _)
  · exact matchLoopF_noCross
      (b.bids.length + (b.asks ++ [(⟨i, Side.Sell, p, qty, ts, st⟩ : Order)]).length)
      b.bids (b.asks ++ [(⟨i, Side.Sell, p, qty, ts, st⟩ : Order)]) (le_refl _)

/-- C1 counterexample: submit Buy 5@90 (id 1), Buy 5@105 (id 2),
Sell 5@100 (id 3), then cancel id 1.  The cancel — a public operation —
leaves head bid price 105 against head ask price 100 with both indexes
non-empty, so the best bid is not strictly below the best ask. -/
theorem C1_counterexample :
    cancelExposesCrossBook.bids.map Order.price = [105] ∧
    cancelExposesCrossBook.asks.map Order.price = [100] ∧
    crossed cancelExposesCrossBook.bids cancelExposesCrossBook.asks = true := by
  decide

/-- C2 (amended): each index is a plain FIFO queue: insertion appends the
new order at the back in arrival order regardless of price (shown here on
a book whose opposite side is empty, so no matching interferes), and no
price ordering is maintained — `C2_counterexample` exhibits a bids index
that is not sorted by price descending. -/
theorem C2_insert_appends_in_arrival_order (b : OrderBook) (o : Order) :
    (o.side = Side.Buy → b.asks = [] →
      addOrder b o = ({ bids := b.bids ++ [o], asks := [] }, [])) ∧
    (o.side = Side.Sell → b.bids = [] →
      addOrder b o = ({ bids := [], asks := b.asks ++ [o] }, [])) := by
  constructor
  · intro hs he
    have h1 : addOrder b o = tryMatch { bids := b.bids ++ [o], asks := b.asks } := by
      unfold addOrder
      rw [hs]
    rw [h1, he]
    exact tryMatch_asks_nil (b.bids ++ [o])
  · intro hs he
    have h1 : addOrder b o = tryMatch { bids := b.bids, asks := b.asks ++ [o] } := by
      unfold addOrder
      rw [hs]
    rw [h1, he]
    exact tryMatch_bids_nil (b.asks ++ [o])

/-- C2 witness: submitting Buy 5@90 into an empty book appends it. -/
theorem C2_witness :
    addOrder emptyBook (Order.new 1 Side.Buy 90 5 10) =
      ({ bids := [Order.new 1 Side.Buy 90 5 10], asks := [] }, []) :=
  (C2_insert_appends_in_arrival_order emptyBook (Order.new 1 Side.Buy 90 5 10)).1 rfl rfl

/-- C2 counterexample: after submitting Buy 5@90 then Buy 5@105 the bids
index holds prices [90, 105]: it is not ordered by price descending and
its head (price 90) is not the highest-priority bid. -/
theorem C2_counterexample :
    twoBuysBook.bids.map Order.price = [90, 105] ∧
    descByPrice twoBuysBook.bids = false := by
  decide

/-- C3: the handler performs no validation at all.  Submitting
quantity 0 (or price 0) constructs the order and inserts it, where it
rests with status `Open` — the claim's `ValidationError` with no state
mutation does not exist in the code. -/
theorem C3_zero_quantity_order_is_inserted :
    (createOrder emptyBook 1 Side.Buy 100 0 5).2.1.bids =
      [{ id := 1, side := Side.Buy, price := 100, quantity := 0, timestamp := 5,
         status := OrderStatus.Open }] ∧
    (createOrder emptyBook 2 Side.Sell 0 7 6).2.1.asks =
      [{ id := 2, side := Side.Sell, price := 0, quantity := 7, timestamp := 6,
         status := OrderStatus.Open }] := by
  decide

/-- C4 (amended): for `new_quantity > 0`, modify replaces the quantity of
the first order with the id (bids searched before asks) and recomputes the
status from the current status only — `PartiallyFilled` is kept, anything
else becomes `Open`; the original quantity is not stored and never
consulted.  The updated snapshot is returned and the updated order is in
the book. -/
theorem C4_modify_replaces_quantity (b : OrderBook) (id q : Nat) (hq : q ≠ 0) :
    ((modifyOrder b id q).1 =
      match findById id b.bids with
      | some o => some (applyModify o q)
      | none => Option.map (fun o => applyModify o q) (findById id b.asks)) ∧
    (∀ r, (modifyOrder b id q).1 = some r →
      r ∈ (modifyOrder b id q).2.bids ∨ r ∈ (modifyOrder b id q).2.asks) := by
  refine ⟨modifyOrder_fst b id q hq, ?_⟩
  intro r hr
  rcases hu1 : updateQty id q b.bids with ⟨f1, l1⟩
  cases f1 with
  | some o =>
    rw [modifyOrder_eq_bids b id q o l1 hq hu1] at hr ⊢
    simp only [Option.some.injEq] at hr
    left
    have hm := updateQty_mem id q b.bids o (by rw [hu1])
    rw [hu1] at hm
    exact hr ▸ hm
  | none =>
    rcases hu2 : updateQty id q b.asks with ⟨f2, l2⟩
    cases f2 with
    | some o =>
      rw [modifyOrder_eq_asks b id q o l1 l2 hq hu1 hu2] at hr ⊢
      simp only [Option.some.injEq] at hr
      right
      have hm := updateQty_mem id q b.asks o (by rw [hu2])
      rw [hu2] at hm
      exact hr ▸ hm
    | none =>
      rw [modifyOrder_eq_none b id q l1 l2 hq hu1 hu2] at hr
      simp at hr

/-- C4 witness: modifying the resting Open bid (original quantity 10) to
quantity 5 returns the snapshot computed by the status rule of the code
(which leaves it `Open`, not `PartiallyFilled`). -/
theorem C4_witness :
    (modifyOrder openBidBook 1 5).1 =
      match findById 1 openBidBook.bids with
      | some o => some (applyModify o 5)
      | none => Option.map (fun o => applyModify o 5) (findById 1 openBidBook.asks) :=
  (C4_modify_replaces_quantity openBidBook 1 5 (by decide)).1

/-- C4 counterexample: submit Buy 10@100 (id 1, resting, status Open),
then modify(1, 5).  The claim demands status `PartiallyFilled` because
5 < 10, but the code returns status `Open`. -/
theorem C4_counterexample :
    (modifyOrder openBidBook 1 5).1 =
      some { id := 1, side := Side.Buy, price := 100, quantity := 5, timestamp := 5,
             status := OrderStatus.Open } ∧
    OrderStatus.Open ≠ OrderStatus.PartiallyFilled := by
  decide

/-- C5 (amended): the trade price reported by the matching loop is always
the price of the ask side of the match, even when the resting order (the
maker) is the bid: a resting bid at `pb` hit by an incoming sell at
`pa ≤ pb` trades at `pa`, the taker's price, not the maker's. -/
theorem C5_trade_priced_at_ask (pb pa qb qa t1 t2 : Nat) (h : pa ≤ pb) :
    (addOrder (addOrder emptyBook (Order.new 1 Side.Buy pb qb t1)).1
        (Order.new 2 Side.Sell pa qa t2)).2 =
      [{ bidId := 1, askId := 2, quantity := min qb qa, price := pa }] := by
  have h1 : (addOrder emptyBook (Order.new 1 Side.Buy pb qb t1)).1 =
      { bids := [Order.new 1 Side.Buy pb qb t1], asks := [] } :=
    congrArg Prod.fst (tryMatch_asks_nil [Order.new 1 Side.Buy pb qb t1])
  rw [h1]
  have h2 : (addOrder { bids := [Order.new 1 Side.Buy pb qb t1], asks := [] }
      (Order.new 2 Side.Sell pa qa t2)).2 =
      (matchLoopF (1 + 1) [Order.new 1 Side.Buy pb qb t1]
        [Order.new 2 Side.Sell pa qa t2]).2 := rfl
  rw [h2, matchLoopF_one_one 1 (Order.new 1 Side.Buy pb qb t1)
    (Order.new 2 Side.Sell pa qa t2) h]
  rfl

/-- C5 witness: Buy 7@105 then Sell 3@100 trades quantity 3 at the ask
price 100 although the maker is the resting bid at 105. -/
theorem C5_witness :
    (addOrder (addOrder emptyBook (Order.new 1 Side.Buy 105 7 1)).1
        (Order.new 2 Side.Sell 100 3 2)).2 =
      [{ bidId := 1, askId := 2, quantity := 3, price := 100 }] :=
  C5_trade_priced_at_ask 105 100 7 3 1 2 (by decide)

/-- C5 counterexample: submit Buy 10@101 then Sell 10@100.  The claim
demands a trade at the maker price 101 (the resting bid); the code
reports the trade at price 100, the incoming ask's price. -/
theorem C5_counterexample :
    (addOrder (addOrder emptyBook (Order.new 1 Side.Buy 101 10 5)).1
        (Order.new 2 Side.Sell 100 10 6)).2 =
      [{ bidId := 1, askId := 2, quantity := 10, price := 100 }] ∧
    (100 : Nat) ≠ 101 := by
  decide

/-- C6: modify with quantity 0 delegates to cancel, whose result on a
present id is the removed snapshot with status `Cancelled`, and `none`
(with no change) when the id is absent from both indexes. -/
theorem C6_modify_zero_is_cancel (b : OrderBook) (id : Nat) :
    modifyOrder b id 0 = cancelOrder b id ∧
    (∀ r, (cancelOrder b id).1 = some r → r.status = OrderStatus.Cancelled) ∧
    (idCount id b = 0 → cancelOrder b id = (none, b)) := by
  refine ⟨modifyOrder_zero b id, fun r hr => cancelOrder_some_status b id r hr, fun h0 => ?_⟩
  have hb : countId id b.bids = 0 := by unfold idCount at h0; omega
  have ha : countId id b.asks = 0 := by unfold idCount at h0; omega
  exact cancelOrder_eq_none b id
    ((removeById_none_iff _ _).mpr hb) ((removeById_none_iff _ _).mpr ha)

/-- C6 witness: with one resting bid id 1 the zero-quantity modify equals
cancel; on an empty book cancel of id 99 returns none unchanged. -/
theorem C6_witness :
    modifyOrder openBidBook 1 0 = cancelOrder openBidBook 1 ∧
    cancelOrder emptyBook 99 = (none, emptyBook) :=
  ⟨(C6_modify_zero_is_cancel openBidBook 1).1,
   (C6_modify_zero_is_cancel emptyBook 99).2.2 (by decide)⟩

/-- C7: an id resting exactly once in the book cancels to a snapshot the
first time and to `none` the second time; an id absent from both indexes
modifies to `none` for every positive quantity. -/
theorem C7_cancel_idempotent (b : OrderBook) (id q : Nat) :
    (idCount id b = 1 →
      ∃ r, (cancelOrder b id).1 = some r ∧
        (cancelOrder (cancelOrder b id).2 id).1 = none) ∧
    (idCount id b = 0 → 0 < q → (modifyOrder b id q).1 = none) := by
  constructor
  · intro h1
    have hne : ¬ (cancelOrder b id).1 = none := by
      rw [cancelOrder_fst_none_iff]
      omega
    rcases ho : (cancelOrder b id).1 with _ | r
    · exact absurd ho hne
    refine ⟨r, rfl, ?_⟩
    rw [cancelOrder_fst_none_iff]
    have hc := cancelOrder_some_count b id r ho
    omega
  · intro h0 hq
    have hb : countId id b.bids = 0 := by unfold idCount at h0; omega
    have ha : countId id b.asks = 0 := by unfold idCount at h0; omega
    rw [modifyOrder_fst b id q (by omega), (findById_none_iff _ _).mpr hb,
      (findById_none_iff _ _).mpr ha]
    rfl

/-- C7 witness: cancel id 1 of the one-bid book twice: first a snapshot,
then none; modify of id 999 on the empty book: none. -/
theorem C7_witness :
    (∃ r, (cancelOrder openBidBook 1).1 = some r ∧
      (cancelOrder (cancelOrder openBidBook 1).2 1).1 = none) ∧
    (modifyOrder emptyBook 999 5).1 = none :=
  ⟨(C7_cancel_idempotent openBidBook 1 5).1 (by decide),
   (C7_cancel_idempotent emptyBook 999 5).2 (by decide) (by decide)⟩

/-- C8 (amended): positivity of resting quantities is preserved: when
every resting order has positive quantity, submitting an order of
positive quantity, any modify, and any cancel leave every resting
quantity positive.  The upper bound "remaining ≤ original" of the claim
is not maintained by the code — the original quantity is not even stored
in memory, and `C8_counterexample` raises a quantity above it — and a
submit of quantity 0 can rest (refuting the unconditional lower bound,
see the C3 theorem). -/
theorem C8_positive_quantities_preserved (b : OrderBook) (hb : allPos b) :
    (∀ o : Order, 0 < o.quantity → allPos (addOrder b o).1) ∧
    (∀ id q : Nat, allPos (modifyOrder b id q).2) ∧
    (∀ id : Nat, allPos (cancelOrder b id).2) := by
  have hcancel : ∀ id : Nat, allPos (cancelOrder b id).2 := by
    intro id
    have hsub := cancelOrder_snd_subset b id
    exact ⟨fun x hx => hb.1 x (hsub.1 x hx), fun x hx => hb.2 x (hsub.2 x hx)⟩
  refine ⟨?_, ?_, hcancel⟩
  · intro o ho
    rcases o with ⟨i, s, p, qty, ts, st⟩
    cases s
    · exact tryMatch_allPos (b.bids ++ [⟨i, Side.Buy, p, qty, ts, st⟩]) b.asks
        (fun x hx => by
          rcases List.mem_append.mp hx with h | h
          · exact hb.1 x h
          · rw [List.mem_singleton.mp h]; exact ho)
        hb.2
    · exact tryMatch_allPos b.bids (b.asks ++ [⟨i, Side.Sell, p, qty, ts, st⟩])
        hb.1
        (fun x hx => by
          rcases List.mem_append.mp hx with h | h
          · exact hb.2 x h
          · rw [List.mem_singleton.mp h]; exact ho)
  · intro id q
    by_cases hq : q = 0
    · subst hq
      rw [modifyOrder_zero]
      exact hcancel id
    · rcases hu1 : updateQty id q b.bids with ⟨f1, l1⟩
      cases f1 with
      | some o =>
        rw [modifyOrder_eq_bids b id q o l1 hq hu1]
        refine ⟨fun x hx => ?_, hb.2⟩
        have := updateQty_snd_mem id q b.bids x (by rw [hu1]; exact hx)
        rcases this with h | h
        · omega
        · exact hb.1 x h
      | none =>
        rcases hu2 : updateQty id q b.asks with ⟨f2, l2⟩
        cases f2 with
        | some o =>
          rw [modifyOrder_eq_asks b id q o l1 l2 hq hu1 hu2]
          refine ⟨hb.1, fun x hx => ?_⟩
          have := updateQty_snd_mem id q b.asks x (by rw [hu2]; exact hx)
          rcases this with h | h
          · omega
          · exact hb.2 x h
        | none =>
          rw [modifyOrder_eq_none b id q l1 l2 hq hu1 hu2]
          exact hb

/-- C8 witness: on the one-bid book (all quantities positive) a modify
and a cancel keep every resting quantity positive. -/
theorem C8_witness :
    allPos (modifyOrder openBidBook 1 3).2 ∧ allPos (cancelOrder openBidBook 1).2 :=
  ⟨(C8_positive_quantities_preserved openBidBook ⟨by decide, by decide⟩).2.1 1 3,
   (C8_positive_quantities_preserved openBidBook ⟨by decide, by decide⟩).2.2 1⟩

/-- C8 counterexample: submit Buy 10@100 (id 1, original quantity 10),
then modify(1, 50): the resting order now carries quantity 50, violating
"remainingQuantity ≤ originalQuantity" since 50 > 10. -/
theorem C8_counterexample :
    (Order.new 1 Side.Buy 100 10 5).quantity = 10 ∧
    (modifyOrder openBidBook 1 50).2.bids.map Order.quantity = [50] ∧
    ¬ (50 ≤ 10) := by
  decide

/-- C9: the matching loop terminates within `bids.length + asks.length`
iterations for every starting book: giving the loop any extra fuel
changes nothing; each iteration emits one trade and removes at least one
resting order, so trades plus survivors never exceed the starting count;
and on exit either an index is empty or the head prices no longer
cross. -/
theorem C9_matching_loop_terminates (b : OrderBook) :
    (∀ k : Nat, matchLoopF (b.bids.length + b.asks.length + k) b.bids b.asks =
      matchLoopF (b.bids.length + b.asks.length) b.bids b.asks) ∧
    (tryMatch b).2.length + (tryMatch b).1.bids.length + (tryMatch b).1.asks.length
      ≤ b.bids.length + b.asks.length ∧
    crossed (tryMatch b).1.bids (tryMatch b).1.asks = false :=
  ⟨fun k => matchLoopF_fuel_add (b.bids.length + b.asks.length) b.bids b.asks (le_refl _) k,
   matchLoopF_size (b.bids.length + b.asks.length) b.bids b.asks,
   matchLoopF_noCross (b.bids.length + b.asks.length) b.bids b.asks (le_refl _)⟩

/-- C10: a modify or cancel that returns `none` leaves both indexes of
the book completely unchanged. -/
theorem C10_failed_lookup_no_mutation (b : OrderBook) (id q : Nat) :
    ((modifyOrder b id q).1 = none → (modifyOrder b id q).2 = b) ∧
    ((cancelOrder b id).1 = none → (cancelOrder b id).2 = b) :=
  ⟨modifyOrder_none_snd b id q, cancelOrder_none_snd b id⟩

/-- C10 witness: failed modify and cancel of id 999 on the empty book
leave it unchanged. -/
theorem C10_witness :
    (modifyOrder emptyBook 999 5).2 = emptyBook ∧
    (cancelOrder emptyBook 999).2 = emptyBook :=
  ⟨(C10_failed_lookup_no_mutation emptyBook 999 5).1 (by decide),
   (C10_failed_lookup_no_mutation emptyBook 999 5).2 (by decide)⟩

end OMS
